import Mathlib

/-!
# Verification of the mimiker i8254 PIT driver (`sys/drv/pit.c`) and mutex header

Shallow embedding of the driver's state and operations. Machine integers are
modelled as `Nat` with explicit reduction modulo `2^w` wherever the C code can
overflow. Fatal assertions (`assert` in kernel code halts the system) are
modelled by `Option`: `none` means the fatal assertion path was taken.

Hardware reads are modelled by passing the raw latched counter value as an
explicit argument; port writes are returned as an explicit list of
(port, byte) pairs.
-/

namespace Pit

/-- Modelled from the spec: the timer input frequency in Hz (`TIMER_FREQ` is
defined in `dev/i8253reg.h`, which is not under `src/`). The i8254 PIT input
clock runs at 1193182 Hz; the spec calls it "frequency (Hz)" and requires the
sub-second tick accumulator to stay strictly below it. -/
def TIMER_FREQ : Nat := 1193182

/-- Modelled from the spec: i8253 register/port constants from
`dev/i8253reg.h` (not under `src/`): counter-0 data port and mode port, and
the mode-word fields selecting counter 0, 16-bit two-byte access, rate
generator mode, and latch command. -/
def TIMER_CNTR0 : Nat := 0x40

/-- Mode/control port of the i8253 (see `TIMER_CNTR0`). -/
def TIMER_MODE : Nat := 0x43

/-- Mode word: select counter 0. -/
def TIMER_SEL0 : Nat := 0x00

/-- Mode word: two-byte (lo/hi) counter access. -/
def TIMER_16BIT : Nat := 0x30

/-- Mode word: rate generator (mode 2). -/
def TIMER_RATEGEN : Nat := 0x04

/-- Per-device mutable driver state (`pit_state_t` in `sys/drv/pit.c`),
without the opaque resource handles. `period_cntr` and `prev_cntr16` are
`uint16_t`, `cntr_modulo` is `uint32_t`, `sec` is `uint64_t`. -/
structure pit_state where
  noticed_overflow : Bool
  period_cntr : Nat
  prev_cntr16 : Nat
  cntr_modulo : Nat
  sec : Nat
deriving Repr, DecidableEq

/-- Machine-width well-formedness of the state record: each field fits the
width of its C type. -/
def wf (st : pit_state) : Prop :=
  st.period_cntr < 2 ^ 16 ∧ st.prev_cntr16 < 2 ^ 16 ∧
    st.cntr_modulo < 2 ^ 32 ∧ st.sec < 2 ^ 64

instance (st : pit_state) : Decidable (wf st) := by
  unfold wf; infer_instance

/-- `pit_get_counter`: latch and read the 16-bit down-counter (the raw value
`count` is the hardware input, one byte from each of two port reads, hence
`count % 2^16`), and convert it to an ascending value by computing
`period_cntr - count` in `uint16_t` arithmetic. -/
def pit_get_counter (st : pit_state) (count : Nat) : Nat :=
  (st.period_cntr + (2 ^ 16 - count % 2 ^ 16)) % 2 ^ 16

/-- `pit_incr_cntr`: add `ticks` into the sub-second accumulator
(`uint32_t` addition), and if it reached `TIMER_FREQ`, subtract the frequency
once and increment the seconds counter (`uint64_t` increment). -/
def pit_incr_cntr (st : pit_state) (ticks : Nat) : pit_state :=
  let c := (st.cntr_modulo + ticks) % 2 ^ 32
  if TIMER_FREQ ≤ c then
    { st with cntr_modulo := c - TIMER_FREQ, sec := (st.sec + 1) % 2 ^ 64 }
  else
    { st with cntr_modulo := c }

/-- Modelled from the spec: the update step described as "add `delta` into the
sub-second-tick accumulator; while the accumulator is at least one frequency's
worth, subtract the frequency and increment the seconds counter". The while
loop is the division/remainder by `TIMER_FREQ`; the seconds counter is the
same `uint64_t` field as in `pit_incr_cntr`. -/
def pit_incr_cntr_spec (st : pit_state) (ticks : Nat) : pit_state :=
  let c := (st.cntr_modulo + ticks) % 2 ^ 32
  { st with cntr_modulo := c % TIMER_FREQ,
            sec := (st.sec + c / TIMER_FREQ) % 2 ^ 64 }

/-- The elapsed-ticks computation of `pit_update_time` (lines 54–59 of
`pit.c`), on ascending counter values: `ticks_passed = now - prev` in
`uint16_t` arithmetic, plus one full divisor `d` (again in `uint16_t`
arithmetic) exactly when `prev > now`. -/
def ticks_passed_calc (prev now d : Nat) : Nat :=
  let t0 := (now + (2 ^ 16 - prev % 2 ^ 16)) % 2 ^ 16
  if now < prev then (t0 + d) % 2 ^ 16 else t0

/-- The state transformation of `pit_update_time` (ignoring its two trailing
assertions): read the counter, compute elapsed ticks with wrap compensation,
record the wrap in `noticed_overflow`, store the reading in `prev_cntr16`,
and fold the elapsed ticks into the accumulator via `pit_incr_cntr`. -/
def pit_update_core (st : pit_state) (count : Nat) : pit_state :=
  let now := pit_get_counter st count
  let ticks := ticks_passed_calc st.prev_cntr16 now st.period_cntr
  let wrapped := now < st.prev_cntr16
  pit_incr_cntr
    { st with noticed_overflow := st.noticed_overflow || wrapped,
              prev_cntr16 := now }
    ticks

/-- Modelled from the spec: the same update step but with the accumulator
reduction expressed by the spec's while loop (`pit_incr_cntr_spec`). -/
def pit_update_core_spec (st : pit_state) (count : Nat) : pit_state :=
  let now := pit_get_counter st count
  let ticks := ticks_passed_calc st.prev_cntr16 now st.period_cntr
  let wrapped := now < st.prev_cntr16
  pit_incr_cntr_spec
    { st with noticed_overflow := st.noticed_overflow || wrapped,
              prev_cntr16 := now }
    ticks

/-- `pit_update_time` with its two fatal assertions (lines 66–68):
the result must be lexicographically strictly greater than the previous
(sec, cntr_modulo) pair, and the accumulator must stay below `TIMER_FREQ`.
`none` models the kernel halting on a failed assertion. -/
def pit_update_time (st : pit_state) (count : Nat) : Option pit_state :=
  let last_sec := st.sec
  let last_cntr := st.cntr_modulo
  let st1 := pit_update_core st count
  if last_sec < st1.sec ∨ (last_sec = st1.sec ∧ last_cntr < st1.cntr_modulo)
  then
    if st1.cntr_modulo < TIMER_FREQ then some st1 else none
  else none

/-- Interrupt filter result, modelled from the spec's interrupt-controller
contract ("handler returns handled or not mine"). -/
inductive intr_filter where
  | IF_STRAY : intr_filter
  | IF_FILTERED : intr_filter
deriving Repr, DecidableEq

/-- `pit_intr`: run the update; if it did not leave the overflow-noticed flag
set, credit one extra full period of ticks; trigger the external clock
framework (`tm_trigger`, modelled as the count of trigger calls); clear the
flag; report `IF_FILTERED`. `none` models a fatal assertion inside the
update. -/
def pit_intr (st : pit_state) (count : Nat) :
    Option (pit_state × Nat × intr_filter) :=
  match pit_update_time st count with
  | none => none
  | some st1 =>
    let st2 := if st1.noticed_overflow then st1
               else pit_incr_cntr st1 st1.period_cntr
    some ({ st2 with noticed_overflow := false }, 1, intr_filter.IF_FILTERED)

/-- Modelled from the spec: the binary fixed-point duration type `bintime_t`
from `sys/time.h` (not under `src/`): whole seconds plus a 64-bit binary
fraction of a second. Both fields are machine words, modelled as `Nat`
reduced modulo `2^64` where arithmetic can overflow. -/
structure bintime where
  sec : Nat
  frac : Nat
deriving Repr, DecidableEq

/-- Modelled from the spec: `bintime_mul` from `sys/time.h` (not under
`src/`), multiplication of a duration by an unsigned scalar. The C code
splits `frac` into 32-bit halves to form the exact 96-bit product; the
result is the exact product of the `2^64`-denominator fixed-point value by
`x`, with the carry out of the fraction added into `sec`. -/
def bintime_mul (bt : bintime) (x : Nat) : bintime :=
  ⟨(bt.sec * x + bt.frac * x / 2 ^ 64) % 2 ^ 64, bt.frac * x % 2 ^ 64⟩

/-- Modelled from the spec: `HZ2BT(hz)` from `sys/time.h` (not under `src/`),
the duration of one tick at frequency `hz`: zero seconds and fraction
`((1 << 63) / hz) << 1`, i.e. `2^64 / hz` computed without overflowing
64 bits. -/
def HZ2BT (hz : Nat) : bintime :=
  ⟨0, (2 ^ 63 / hz) * 2 % 2 ^ 64⟩

/-- The timer descriptor fields published by the driver (`timer_t` from
`sys/timer.h` is not under `src/`; the capability fields are modelled from
the spec's TimerDescriptor: name, capability flags, quality score, frequency,
minimum and maximum period). -/
structure timer_desc where
  tm_name : String
  tm_flags_periodic : Bool
  tm_flags_oneshot : Bool
  tm_quality : Nat
  tm_frequency : Nat
  tm_min_period : bintime
  tm_max_period : bintime
deriving Repr, DecidableEq

/-- The descriptor built by `pit_attach` (lines 157–168 of `pit.c`):
name "i8254", periodic-only, quality 100, frequency `TIMER_FREQ`,
minimum period of one counter tick, maximum period of 65536 ticks. -/
def pit_timer_desc : timer_desc :=
  { tm_name := "i8254"
    tm_flags_periodic := true
    tm_flags_oneshot := false
    tm_quality := 100
    tm_frequency := TIMER_FREQ
    tm_min_period := HZ2BT TIMER_FREQ
    tm_max_period := bintime_mul (HZ2BT TIMER_FREQ) 65536 }

/-- `pit_set_frequency`: the three port writes programming the divisor —
the mode word, then the divisor's low byte and high byte on counter 0. -/
def pit_set_frequency (d : Nat) : List (Nat × Nat) :=
  [(TIMER_MODE, TIMER_SEL0 + TIMER_16BIT + TIMER_RATEGEN),
   (TIMER_CNTR0, d % 256),
   (TIMER_CNTR0, d / 256 % 256)]

/-- Start-flags word, modelled from the spec's capability flags
(`TMF_PERIODIC` / `TMF_ONESHOT` from `sys/timer.h`, not under `src/`). -/
structure tm_flags where
  periodic : Bool
  oneshot : Bool
deriving Repr, DecidableEq

/-- Result of a successful `pit_timer_start`: the reset driver state, the
port writes of `pit_set_frequency`, whether the interrupt handler was
registered with the interrupt controller (`pic_setup_intr`), and the
returned status. -/
structure start_result where
  st : pit_state
  writes : List (Nat × Nat)
  handler_registered : Bool
  status : Int
deriving Repr, DecidableEq

/-- `pit_timer_start` (lines 95–117): assert periodic and not one-shot;
compute the divisor as `bintime_mul period TIMER_FREQ |>.sec`; assert it
fits in 16 bits; reset `sec`, `cntr_modulo`, `prev_cntr16`,
`noticed_overflow` to zero/false and store the divisor; program the
hardware; register the interrupt handler; return 0. `none` models a failed
(fatal) assertion. -/
def pit_timer_start (flags : tm_flags) (period : bintime) :
    Option start_result :=
  if flags.periodic = false then none
  else if flags.oneshot = true then none
  else
    let counter := (bintime_mul period TIMER_FREQ).sec
    if counter ≤ 0xFFFF then
      some { st := { noticed_overflow := false, period_cntr := counter,
                     prev_cntr16 := 0, cntr_modulo := 0, sec := 0 }
             writes := pit_set_frequency counter
             handler_registered := true
             status := 0 }
    else none

/-- `pit_timer_gettime` (lines 126–143): under disabled interrupts, force an
update (fatal assertions modelled by `none`), capture (sec, cntr_modulo),
convert the sub-second ticks with `bintime_mul tm_min_period cntr_modulo`,
assert the conversion has zero whole seconds, overwrite the seconds field
with the captured seconds, and return the duration together with the state
the driver is left in. -/
def pit_timer_gettime (st : pit_state) (count : Nat) :
    Option (bintime × pit_state) :=
  match pit_update_time st count with
  | none => none
  | some st1 =>
    let bt := bintime_mul pit_timer_desc.tm_min_period st1.cntr_modulo
    if bt.sec = 0 then some (⟨st1.sec, bt.frac⟩, st1) else none

/-- Result of `pit_attach`: status, the registered descriptor if
`tm_register` was reached, and whether any interrupt handler was installed
(attach installs none; only `pit_timer_start` does). -/
structure attach_result where
  status : Int
  registered : Option timer_desc
  handler_registered : Bool
deriving Repr, DecidableEq

/-- `pit_attach` (lines 145–173): take the I/O ports, map them (the mapping
status `map_err` is the external bus collaborator's answer); on failure
return that status without registering anything; on success take the IRQ
resource, fill in the descriptor and register it, and return 0. -/
def pit_attach (map_err : Int) : attach_result :=
  if map_err ≠ 0 then
    { status := map_err, registered := none, handler_registered := false }
  else
    { status := 0, registered := some pit_timer_desc,
      handler_registered := false }

/-- `pit_probe` (lines 175–177): accept exactly the device with unit 3. -/
def pit_probe (unit : Nat) : Bool :=
  unit == 3

end Pit

namespace Mtx

/-- Flag stored in the low bits of `m_owner`: sleep mode. -/
def MTX_SLEEP : Nat := 0

/-- Flag stored in the low bits of `m_owner`: spin mode. -/
def MTX_SPIN : Nat := 1

/-- Flag stored in the low bits of `m_owner`: lockdep disabled. -/
def MTX_NODEBUG : Nat := 2

/-- Flag stored in the low bits of `m_owner`: contested. -/
def MTX_CONTESTED : Nat := 4

/-- Mask of the three low flag bits of `m_owner`. -/
def MTX_FLAGMASK : Nat := 7

/-- The mutex record (`mtx_t`): one atomic machine word holding the owner
address with flags in the three low bits. Modelled as a 64-bit word
(`Nat`, kept below `2^64`). -/
structure mtx where
  m_owner : Nat
deriving Repr, DecidableEq

/-- `MTX_INITIALIZER(name, type)` (without lockdep metadata): the owner word
starts as just the type flags. -/
def MTX_INITIALIZER (type_ : Nat) : mtx :=
  ⟨type_⟩

/-- `mtx_owner`: the owner word with the three low flag bits masked out,
`m_owner & ~MTX_FLAGMASK` on a 64-bit word. -/
def mtx_owner (m : mtx) : Nat :=
  Nat.land m.m_owner (2 ^ 64 - (MTX_FLAGMASK + 1))

end Mtx

namespace Pit

/-! ## Helper lemmas -/

lemma ticks_passed_calc_lt (prev now d : Nat) :
    ticks_passed_calc prev now d < 2 ^ 16 := by
  unfold ticks_passed_calc
  split <;> exact Nat.mod_lt _ (by norm_num)

lemma pit_get_counter_lt (st : pit_state) (count : Nat) :
    pit_get_counter st count < 2 ^ 16 :=
  Nat.mod_lt _ (by norm_num)

lemma pit_incr_cntr_eq_spec (st : pit_state) (ticks : Nat)
    (hsec : st.sec < 2 ^ 64)
    (h2f : st.cntr_modulo + ticks < 2 * TIMER_FREQ)
    (h32 : st.cntr_modulo + ticks < 2 ^ 32) :
    pit_incr_cntr st ticks = pit_incr_cntr_spec st ticks := by
  obtain ⟨no, pc, prev, cm, sec⟩ := st
  simp only [pit_incr_cntr, pit_incr_cntr_spec, TIMER_FREQ] at *
  split <;> simp_all [pit_state.mk.injEq] <;> omega

lemma pit_incr_cntr_lt_freq (st : pit_state) (ticks : Nat)
    (h2f : st.cntr_modulo + ticks < 2 * TIMER_FREQ)
    (h32 : st.cntr_modulo + ticks < 2 ^ 32) :
    (pit_incr_cntr st ticks).cntr_modulo < TIMER_FREQ := by
  simp only [pit_incr_cntr, TIMER_FREQ] at *
  split <;> simp_all <;> omega

lemma pit_incr_cntr_wf (st : pit_state) (ticks : Nat) (hwf : wf st) :
    wf (pit_incr_cntr st ticks) := by
  obtain ⟨no, pc, prev, cm, sec⟩ := st
  obtain ⟨h1, h2, h3, h4⟩ := hwf
  simp only [pit_incr_cntr, wf, TIMER_FREQ] at *
  split <;> simp_all <;> omega

lemma pit_update_core_wf (st : pit_state) (count : Nat) (hwf : wf st) :
    wf (pit_update_core st count) := by
  unfold pit_update_core
  refine pit_incr_cntr_wf _ _ ?_
  obtain ⟨h1, h2, h3, h4⟩ := hwf
  exact ⟨h1, pit_get_counter_lt st count, h3, h4⟩

lemma pit_update_time_some {st : pit_state} {count : Nat} {st1 : pit_state}
    (h : pit_update_time st count = some st1) :
    st1 = pit_update_core st count ∧
      (st.sec < st1.sec ∨
        (st.sec = st1.sec ∧ st.cntr_modulo < st1.cntr_modulo)) ∧
      st1.cntr_modulo < TIMER_FREQ := by
  simp only [pit_update_time] at h
  split at h
  · split at h
    · cases h
      refine ⟨rfl, ?_, by assumption⟩
      assumption
    · cases h
  · cases h

lemma pit_update_core_eq_spec (st : pit_state) (count : Nat)
    (hwf : wf st) (hinv : st.cntr_modulo < TIMER_FREQ) :
    pit_update_core st count = pit_update_core_spec st count := by
  have hlt := ticks_passed_calc_lt st.prev_cntr16 (pit_get_counter st count)
    st.period_cntr
  unfold pit_update_core pit_update_core_spec
  refine pit_incr_cntr_eq_spec _ _ hwf.2.2.2 ?_ ?_ <;>
    dsimp only <;> simp only [TIMER_FREQ] at * <;> omega

/-! ## Claims -/

/-- C1: for every state with the accumulator below the frequency and every
raw counter reading, a (non-fatal) run of `pit_update_time` yields a state
whose (sec, cntr_modulo) pair is lexicographically not less than the old
pair and whose accumulator is again strictly below `TIMER_FREQ`; moreover
the conditional single subtraction of `pit_incr_cntr` agrees with the
spec's while-loop reduction (`pit_incr_cntr_spec`), both for the update
itself and for any 16-bit tick count. -/
theorem c1_update_monotone_below_freq_and_spec (st : pit_state)
    (count t : Nat) (hwf : wf st) (hinv : st.cntr_modulo < TIMER_FREQ)
    (ht : t < 2 ^ 16) :
    (∀ st1, pit_update_time st count = some st1 →
      (st.sec < st1.sec ∨
        (st.sec = st1.sec ∧ st.cntr_modulo ≤ st1.cntr_modulo)) ∧
      st1.cntr_modulo < TIMER_FREQ ∧
      st1 = pit_update_core_spec st count) ∧
    pit_incr_cntr st t = pit_incr_cntr_spec st t := by
  constructor
  · intro st1 h
    obtain ⟨hcore, hlex, hfreq⟩ := pit_update_time_some h
    refine ⟨?_, hfreq, ?_⟩
    · rcases hlex with h1 | ⟨h1, h2⟩
      · exact Or.inl h1
      · exact Or.inr ⟨h1, Nat.le_of_lt h2⟩
    · rw [hcore]
      exact pit_update_core_eq_spec st count hwf hinv
  · refine pit_incr_cntr_eq_spec st t hwf.2.2.2 ?_ ?_
    · simp only [TIMER_FREQ] at *; omega
    · simp only [TIMER_FREQ] at hinv; omega

/-- Witness for C1 at a concrete state and reading: period 100, previous
ascending counter 5, accumulator 7, 3 seconds; raw reading 90 (ascending
value 10). -/
theorem c1_witness :
    pit_incr_cntr ⟨false, 100, 5, 7, 3⟩ 5 =
      pit_incr_cntr_spec ⟨false, 100, 5, 7, 3⟩ 5 :=
  (c1_update_monotone_below_freq_and_spec ⟨false, 100, 5, 7, 3⟩ 90 5
    (by decide) (by decide) (by decide)).2

/-- C2: the claim says the trailing assertions of `pit_update_time` hold for
every invariant-satisfying state and every reading, including a reading
identical to the previous one. The code's first assertion demands a
*strictly* greater (sec, cntr_modulo) pair, so a zero-delta read (raw
reading 95 against period 100 gives ascending value 5, equal to
`prev_cntr16`) takes the fatal path: the state satisfies the invariant,
yet the update returns `none`. -/
theorem c2_assert_fails_on_equal_reading :
    wf ⟨false, 100, 5, 7, 3⟩ ∧
    (⟨false, 100, 5, 7, 3⟩ : pit_state).cntr_modulo < TIMER_FREQ ∧
    pit_get_counter ⟨false, 100, 5, 7, 3⟩ 95 =
      (⟨false, 100, 5, 7, 3⟩ : pit_state).prev_cntr16 ∧
    pit_update_time ⟨false, 100, 5, 7, 3⟩ 95 = none := by
  decide

/-- C3 counterexample: with divisor 100 and previous ascending value 5,
exactly one wrap occurs when 100 ticks elapse ((5+100)/100 = 1 reload),
yet the elapsed-tick computation returns 0, not 100 — so under the claim's
"at most one wrap" hypothesis the computation is not always exact. -/
theorem c3_counterexample :
    (5 + 100) / 100 = 1 ∧
    ticks_passed_calc 5 ((5 + 100) % 100) 100 = 0 := by
  decide

/-- C3 (amended): if strictly fewer ticks than one full divisor period
elapsed between the two reads, the elapsed-tick computation is exact: the
16-bit modular subtraction plus one conditional divisor addition recovers
the true elapsed count, counting a single wrap exactly once. -/
theorem c3_elapsed_ticks_exact (prev elapsed d : Nat) (hd : d ≤ 0xFFFF)
    (hprev : prev < d) (helapsed : elapsed < d) :
    ticks_passed_calc prev ((prev + elapsed) % d) d = elapsed := by
  rcases Nat.lt_or_ge (prev + elapsed) d with hcase | hcase
  · have hnow : (prev + elapsed) % d = prev + elapsed := Nat.mod_eq_of_lt hcase
    rw [hnow]
    unfold ticks_passed_calc
    dsimp only
    split <;> omega
  · have hnow : (prev + elapsed) % d = prev + elapsed - d := by
      rw [Nat.mod_eq_sub_mod hcase]
      exact Nat.mod_eq_of_lt (by omega)
    rw [hnow]
    unfold ticks_passed_calc
    dsimp only
    split <;> omega

/-- Witness for C3 (amended) at a concrete wrap: divisor 100, previous
ascending value 5, 99 elapsed ticks wrap the counter once and are counted
exactly once. -/
theorem c3_witness :
    ticks_passed_calc 5 ((5 + 99) % 100) 100 = 99 :=
  c3_elapsed_ticks_exact 5 99 100 (by decide) (by decide) (by decide)

/-- C4: a (non-fatal) run of the interrupt handler performs exactly the
claimed steps: it runs the update; exactly when the overflow-noticed flag is
false after the update it credits one extra full period of ticks (shown via
the spec-level while-loop reduction `pit_incr_cntr_spec`, equal to the
code's `pit_incr_cntr` here); it clears the flag, triggers the external
clock framework once, and returns `IF_FILTERED`; the resulting accumulator
is again below the frequency. -/
theorem c4_intr_steps (st : pit_state) (count : Nat)
    (hwf : wf st) (hinv : st.cntr_modulo < TIMER_FREQ) :
    ∀ st1, pit_update_time st count = some st1 →
      pit_intr st count = some
        ({ (if st1.noticed_overflow = true then st1
            else pit_incr_cntr_spec st1 st1.period_cntr) with
              noticed_overflow := false }, 1, intr_filter.IF_FILTERED) ∧
      ∀ r, pit_intr st count = some r →
        r.1.noticed_overflow = false ∧ r.1.cntr_modulo < TIMER_FREQ := by
  intro st1 h
  obtain ⟨hcore, _hlex, hfreq⟩ := pit_update_time_some h
  have hwf1 : wf st1 := by
    rw [hcore]; exact pit_update_core_wf st count hwf
  have hmain : pit_intr st count = some
      ({ (if st1.noticed_overflow = true then st1
          else pit_incr_cntr_spec st1 st1.period_cntr) with
            noticed_overflow := false }, 1, intr_filter.IF_FILTERED) := by
    unfold pit_intr
    rw [h]
    cases hno : st1.noticed_overflow
    · have hagree : pit_incr_cntr st1 st1.period_cntr =
          pit_incr_cntr_spec st1 st1.period_cntr := by
        refine pit_incr_cntr_eq_spec st1 st1.period_cntr hwf1.2.2.2 ?_ ?_
        · have := hwf1.1
          simp only [TIMER_FREQ] at *
          omega
        · have := hwf1.1
          simp only [TIMER_FREQ] at *
          omega
      simp [hno, hagree]
    · simp [hno]
  refine ⟨hmain, ?_⟩
  intro r hr
  rw [hmain] at hr
  cases hr
  cases hno : st1.noticed_overflow
  · constructor
    · simp [hno]
    · have h0 : (0:Nat) < TIMER_FREQ := by norm_num [TIMER_FREQ]
      simp only [hno, Bool.false_eq_true, if_false]
      show (pit_incr_cntr_spec st1 st1.period_cntr).cntr_modulo < TIMER_FREQ
      unfold pit_incr_cntr_spec
      exact Nat.mod_lt _ h0
  · constructor
    · simp [hno]
    · simp only [hno, if_true]
      exact hfreq

/-- Witness for C4: period 72, fresh state, raw reading 70 (ascending
value 2); the update yields accumulator 2 without noticing a wrap, so the
handler credits a full period. -/
theorem c4_witness :
    pit_intr ⟨false, 72, 0, 0, 0⟩ 70 = some
      ({ (if (⟨false, 72, 2, 2, 0⟩ : pit_state).noticed_overflow = true
          then (⟨false, 72, 2, 2, 0⟩ : pit_state)
          else pit_incr_cntr_spec ⟨false, 72, 2, 2, 0⟩ 72) with
            noticed_overflow := false }, 1, intr_filter.IF_FILTERED) :=
  ((c4_intr_steps ⟨false, 72, 0, 0, 0⟩ 70 (by decide) (by decide)
    ⟨false, 72, 2, 2, 0⟩ (by decide)).1)

lemma tick_frac_mul_lt (m : Nat) (hm : m < TIMER_FREQ) :
    (HZ2BT TIMER_FREQ).frac * m < 2 ^ 64 := by
  have hfrac : (HZ2BT TIMER_FREQ).frac = 15460126010708 := by
    norm_num [HZ2BT, TIMER_FREQ]
  rw [hfrac]
  simp only [TIMER_FREQ] at hm
  calc 15460126010708 * m ≤ 15460126010708 * 1193181 :=
        Nat.mul_le_mul_left _ (by omega)
    _ < 2 ^ 64 := by norm_num

lemma bintime_mul_tick (m : Nat) (hm : m < TIMER_FREQ) :
    bintime_mul (HZ2BT TIMER_FREQ) m = ⟨0, (HZ2BT TIMER_FREQ).frac * m⟩ := by
  have hov := tick_frac_mul_lt m hm
  unfold bintime_mul
  simp only [bintime.mk.injEq]
  constructor
  · have hsec : (HZ2BT TIMER_FREQ).sec = 0 := rfl
    rw [hsec, Nat.zero_mul, Nat.zero_add, Nat.div_eq_of_lt hov, Nat.zero_mod]
  · exact Nat.mod_eq_of_lt hov

/-- C5: whenever the forced update succeeds, `pit_timer_gettime` returns
exactly the captured seconds in the `sec` field and the captured sub-second
tick count times the one-tick period in the fraction field (the product
does not overflow the 64-bit fraction), and it leaves the driver in exactly
the post-update state. In `2^-64`-second units the returned duration equals
seconds plus ticks times the per-tick period. -/
theorem c5_gettime_value (st : pit_state) (count : Nat) :
    ∀ st1, pit_update_time st count = some st1 →
      pit_timer_gettime st count =
        some (⟨st1.sec, (HZ2BT TIMER_FREQ).frac * st1.cntr_modulo⟩, st1) ∧
      (HZ2BT TIMER_FREQ).frac * st1.cntr_modulo < 2 ^ 64 ∧
      st1.sec * 2 ^ 64 + (HZ2BT TIMER_FREQ).frac * st1.cntr_modulo =
        st1.sec * 2 ^ 64 +
          st1.cntr_modulo * (HZ2BT TIMER_FREQ).frac := by
  intro st1 h
  obtain ⟨_hcore, _hlex, hfreq⟩ := pit_update_time_some h
  have hov := tick_frac_mul_lt st1.cntr_modulo hfreq
  refine ⟨?_, hov, by ring⟩
  unfold pit_timer_gettime
  rw [h]
  dsimp only
  rw [show pit_timer_desc.tm_min_period = HZ2BT TIMER_FREQ from rfl,
    bintime_mul_tick st1.cntr_modulo hfreq]
  simp

/-- Witness for C5 at period 72, fresh state, raw reading 70. -/
theorem c5_witness :
    pit_timer_gettime ⟨false, 72, 0, 0, 0⟩ 70 = some
      (⟨(⟨false, 72, 2, 2, 0⟩ : pit_state).sec,
        (HZ2BT TIMER_FREQ).frac *
          (⟨false, 72, 2, 2, 0⟩ : pit_state).cntr_modulo⟩,
       ⟨false, 72, 2, 2, 0⟩) :=
  (c5_gettime_value ⟨false, 72, 0, 0, 0⟩ 70 ⟨false, 72, 2, 2, 0⟩
    (by decide)).1

/-- C6: `pit_timer_start` rejects non-periodic or one-shot requests fatally;
given a periodic, non-one-shot request it is fatal exactly when the divisor
(the period times the timer frequency) does not fit in 16 bits, and
otherwise it zeroes the seconds, accumulator, last-seen counter and
overflow flag, stores the divisor, emits the three divisor-programming port
writes, registers the interrupt handler, and returns status 0. -/
theorem c6_start_behavior (flags : tm_flags) (period : bintime) :
    ((flags.periodic = false ∨ flags.oneshot = true) →
      pit_timer_start flags period = none) ∧
    (flags.periodic = true → flags.oneshot = false →
      ((pit_timer_start flags period = none ↔
          0xFFFF < (bintime_mul period TIMER_FREQ).sec) ∧
        ((bintime_mul period TIMER_FREQ).sec ≤ 0xFFFF →
          pit_timer_start flags period = some
            { st := { noticed_overflow := false,
                      period_cntr := (bintime_mul period TIMER_FREQ).sec,
                      prev_cntr16 := 0, cntr_modulo := 0, sec := 0 },
              writes := pit_set_frequency ((bintime_mul period TIMER_FREQ).sec),
              handler_registered := true,
              status := 0 }))) := by
  unfold pit_timer_start
  constructor
  · rintro (h | h) <;> simp [h]
  · intro hp ho
    rw [hp, ho]
    refine ⟨⟨?_, ?_⟩, ?_⟩
    · intro hnone
      rw [if_neg (by decide), if_neg (by decide)] at hnone
      by_contra hgt
      rw [if_pos (by omega)] at hnone
      exact Option.noConfusion hnone
    · intro hgt
      rw [if_neg (by decide), if_neg (by decide), if_neg (by omega)]
    · intro hle
      rw [if_neg (by decide), if_neg (by decide), if_pos hle]

/-- Witness for C6: a half-as-coarse period of `2^50 / 2^64` seconds gives
divisor 72 and a successful start. -/
theorem c6_witness :
    pit_timer_start ⟨true, false⟩ ⟨0, 2 ^ 50⟩ = some
      { st := { noticed_overflow := false, period_cntr := 72,
                prev_cntr16 := 0, cntr_modulo := 0, sec := 0 },
        writes := [(TIMER_MODE, 52), (TIMER_CNTR0, 72), (TIMER_CNTR0, 0)],
        handler_registered := true,
        status := 0 } := by
  have h := ((c6_start_behavior ⟨true, false⟩ ⟨0, 2 ^ 50⟩).2 rfl rfl).2
    (by decide)
  rw [h]
  decide

/-- C7: `pit_probe` accepts exactly the device with unit 3, and the
descriptor built by `pit_attach` is periodic-only with quality 100,
frequency `TIMER_FREQ`, minimum period of one tick and maximum period of
65536 ticks; the maximum period itself satisfies `pit_timer_start`'s
divisor bound (its divisor is at most `0xFFFF`). -/
theorem c7_probe_and_descriptor :
    (∀ u : Nat, pit_probe u = true ↔ u = 3) ∧
    pit_timer_desc.tm_flags_periodic = true ∧
    pit_timer_desc.tm_flags_oneshot = false ∧
    pit_timer_desc.tm_quality = 100 ∧
    pit_timer_desc.tm_frequency = TIMER_FREQ ∧
    pit_timer_desc.tm_min_period = HZ2BT TIMER_FREQ ∧
    pit_timer_desc.tm_max_period = bintime_mul (HZ2BT TIMER_FREQ) 65536 ∧
    (bintime_mul pit_timer_desc.tm_max_period TIMER_FREQ).sec ≤ 0xFFFF := by
  refine ⟨?_, rfl, rfl, rfl, rfl, rfl, rfl, by decide⟩
  intro u
  simp [pit_probe]

/-- Witness for C7: unit 3 is accepted. -/
theorem c7_witness : pit_probe 3 = true :=
  (c7_probe_and_descriptor.1 3).mpr rfl

/-- C8: when mapping the I/O resource fails, `pit_attach` returns that
error status, registers no timer descriptor with the clock framework, and
installs no interrupt handler. -/
theorem c8_attach_error_path (e : Int) (he : e ≠ 0) :
    pit_attach e =
      { status := e, registered := none, handler_registered := false } := by
  unfold pit_attach
  rw [if_pos he]

/-- Witness for C8 at the concrete mapping error 22. -/
theorem c8_witness :
    pit_attach 22 =
      { status := 22, registered := none, handler_registered := false } :=
  c8_attach_error_path 22 (by decide)

/-! ## Reachability of driver states -/

/-- Driver states reachable through `pit_timer_start` and the updates forced
by `pit_timer_gettime` (whose state change is a `pit_update_time` run) and
by the interrupt handler. -/
inductive Reachable : pit_state → Prop where
  | start (flags : tm_flags) (period : bintime) (r : start_result)
      (h : pit_timer_start flags period = some r) : Reachable r.st
  | update (st : pit_state) (count : Nat) (st1 : pit_state)
      (h0 : Reachable st) (h : pit_update_time st count = some st1) :
      Reachable st1
  | intr (st : pit_state) (count : Nat) (r : pit_state × Nat × intr_filter)
      (h0 : Reachable st) (h : pit_intr st count = some r) : Reachable r.1

lemma pit_timer_start_some {flags : tm_flags} {period : bintime}
    {r : start_result} (h : pit_timer_start flags period = some r) :
    r.st = { noticed_overflow := false,
             period_cntr := (bintime_mul period TIMER_FREQ).sec,
             prev_cntr16 := 0, cntr_modulo := 0, sec := 0 } ∧
      (bintime_mul period TIMER_FREQ).sec ≤ 0xFFFF := by
  simp only [pit_timer_start] at h
  split_ifs at h with h1 h2 h3
  · cases h
    exact ⟨rfl, h3⟩

lemma pit_intr_some {st : pit_state} {count : Nat}
    {r : pit_state × Nat × intr_filter} (h : pit_intr st count = some r) :
    ∃ st1, pit_update_time st count = some st1 ∧
      r = ({ (if st1.noticed_overflow then st1
              else pit_incr_cntr st1 st1.period_cntr) with
               noticed_overflow := false }, 1, intr_filter.IF_FILTERED) := by
  unfold pit_intr at h
  cases hu : pit_update_time st count with
  | none =>
    rw [hu] at h
    cases h
  | some st1 =>
    rw [hu] at h
    dsimp only at h
    cases h
    exact ⟨st1, rfl, rfl⟩

lemma reachable_wf_inv {st : pit_state} (h : Reachable st) :
    wf st ∧ st.cntr_modulo < TIMER_FREQ := by
  induction h with
  | start flags period r h =>
    obtain ⟨hst, hle⟩ := pit_timer_start_some h
    rw [hst]
    unfold wf
    dsimp only
    exact ⟨⟨by omega, by norm_num, by norm_num, by norm_num⟩,
      by norm_num [TIMER_FREQ]⟩
  | update st count st1 h0 h ih =>
    obtain ⟨hcore, _, hfreq⟩ := pit_update_time_some h
    rw [hcore]
    exact ⟨pit_update_core_wf st count ih.1, hcore ▸ hfreq⟩
  | intr st count r h0 h ih =>
    obtain ⟨st1, hu, hr⟩ := pit_intr_some h
    obtain ⟨hcore, _, hfreq⟩ := pit_update_time_some hu
    have hwf1 : wf st1 := by
      rw [hcore]; exact pit_update_core_wf st count ih.1
    rw [hr]
    cases hno : st1.noticed_overflow
    · have hwf2 : wf (pit_incr_cntr st1 st1.period_cntr) :=
        pit_incr_cntr_wf st1 st1.period_cntr hwf1
      have hlt : (pit_incr_cntr st1 st1.period_cntr).cntr_modulo <
          TIMER_FREQ := by
        refine pit_incr_cntr_lt_freq st1 st1.period_cntr ?_ ?_
        · have := hwf1.1
          simp only [TIMER_FREQ] at *
          omega
        · have := hwf1.1
          simp only [TIMER_FREQ] at *
          omega
      simp only [hno, Bool.false_eq_true, if_false]
      exact ⟨⟨hwf2.1, hwf2.2.1, hwf2.2.2.1, hwf2.2.2.2⟩, hlt⟩

    · simp only [hno, if_true]
      exact ⟨⟨hwf1.1, hwf1.2.1, hwf1.2.2.1, hwf1.2.2.2⟩, hfreq⟩

lemma pit_timer_gettime_eq (st : pit_state) (count : Nat)
    {st1 : pit_state} (hu : pit_update_time st count = some st1) :
    pit_timer_gettime st count =
      some (⟨st1.sec, (HZ2BT TIMER_FREQ).frac * st1.cntr_modulo⟩, st1) := by
  obtain ⟨_, _, hfreq⟩ := pit_update_time_some hu
  unfold pit_timer_gettime
  rw [hu]
  dsimp only
  rw [show pit_timer_desc.tm_min_period = HZ2BT TIMER_FREQ from rfl,
    bintime_mul_tick st1.cntr_modulo hfreq]
  simp

/-- C10: for every driver state reachable through start and updates, the
accumulator is strictly below the timer frequency; hence, whenever the
forced update of `pit_timer_gettime` succeeds, the conversion of the
captured sub-second tick count by the one-tick minimum period has zero
whole seconds — the assertion `bt.sec == 0` never fails — and the seconds
field of the returned duration is exactly the captured seconds count. -/
theorem c10_gettime_assert_unreachable (st : pit_state) (h : Reachable st) :
    st.cntr_modulo < TIMER_FREQ ∧
    ∀ count st1, pit_update_time st count = some st1 →
      (bintime_mul pit_timer_desc.tm_min_period st1.cntr_modulo).sec = 0 ∧
      ∀ bt st2, pit_timer_gettime st count = some (bt, st2) →
        bt.sec = st1.sec := by
  obtain ⟨_hwf, hinv⟩ := reachable_wf_inv h
  refine ⟨hinv, ?_⟩
  intro count st1 hu
  obtain ⟨_, _, hfreq⟩ := pit_update_time_some hu
  constructor
  · rw [show pit_timer_desc.tm_min_period = HZ2BT TIMER_FREQ from rfl,
      bintime_mul_tick st1.cntr_modulo hfreq]
  · intro bt st2 hg
    rw [pit_timer_gettime_eq st count hu] at hg
    cases hg
    rfl

/-- Witness for C10 at a concrete reachable state: the state left by a
successful start with divisor 72, updated with raw reading 70. -/
theorem c10_witness :
    (bintime_mul pit_timer_desc.tm_min_period
      (⟨false, 72, 2, 2, 0⟩ : pit_state).cntr_modulo).sec = 0 :=
  ((c10_gettime_assert_unreachable ⟨false, 72, 0, 0, 0⟩
      (Reachable.start ⟨true, false⟩ ⟨0, 2 ^ 50⟩
        { st := { noticed_overflow := false, period_cntr := 72,
                  prev_cntr16 := 0, cntr_modulo := 0, sec := 0 },
          writes := pit_set_frequency 72,
          handler_registered := true, status := 0 }
        (by decide))).2 70 ⟨false, 72, 2, 2, 0⟩ (by decide)).1

end Pit

namespace Mtx

lemma owner_mask_eq (w : Nat) (hw : w < 2 ^ 64) :
    Nat.land w (2 ^ 64 - 8) = 8 * (w / 8) := by
  apply Nat.eq_of_testBit_eq
  intro i
  have hmask : Nat.testBit (2 ^ 64 - 8) i =
      (decide (i < 64) && !Nat.testBit 7 i) :=
    Nat.testBit_two_pow_sub_succ (by norm_num) i
  have h7i : Nat.testBit 7 i = decide (i < 3) := by
    rw [show (7:Nat) = 2 ^ 3 - 1 by norm_num]
    exact Nat.testBit_two_pow_sub_one 3 i
  have hrhs : Nat.testBit (8 * (w / 8)) i =
      (decide (i ≥ 3) && Nat.testBit (w / 8) (i - 3)) := by
    rw [show (8:Nat) * (w / 8) = 2 ^ 3 * (w / 8) by norm_num]
    exact Nat.testBit_mul_pow_two
  have hdiv : Nat.testBit (w / 8) (i - 3) = Nat.testBit w (3 + (i - 3)) := by
    rw [show w / 8 = w >>> 3 by rw [Nat.shiftRight_eq_div_pow]]
    exact Nat.testBit_shiftRight w
  rw [show Nat.land w (2 ^ 64 - 8) = w &&& (2 ^ 64 - 8) from rfl,
    Nat.testBit_and, hmask, h7i, hrhs, hdiv]
  rcases Nat.lt_or_ge i 3 with hi3 | hi3
  · simp [hi3, Nat.not_le.mpr hi3]
  · rw [show 3 + (i - 3) = i by omega]
    rcases Nat.lt_or_ge i 64 with hi64 | hi64
    · simp [hi64, Nat.not_lt.mpr hi3, hi3, Bool.and_comm]
    · have hwlt : w < 2 ^ i :=
        Nat.lt_of_lt_of_le hw (Nat.pow_le_pow_right (by norm_num) hi64)
      simp [Nat.testBit_lt_two_pow hwlt, Nat.not_lt.mpr hi64]

/-- C9: for every 64-bit owner word, `mtx_owner` returns the word with the
three low flag bits (mode, debug-disabled, contested) masked out — the word
rounded down to a multiple of 8, i.e. `w - w % 8`; consequently a mutex
built by `MTX_INITIALIZER` with either fixed mode starts with the
zero/sentinel owner, i.e. unlocked. -/
theorem c9_mtx_owner_masks_flags (w : Nat) (hw : w < 2 ^ 64) :
    mtx_owner ⟨w⟩ = 8 * (w / 8) ∧
    mtx_owner ⟨w⟩ = w - w % 8 ∧
    mtx_owner (MTX_INITIALIZER MTX_SLEEP) = 0 ∧
    mtx_owner (MTX_INITIALIZER MTX_SPIN) = 0 := by
  have hmask : mtx_owner ⟨w⟩ = Nat.land w (2 ^ 64 - 8) := by
    unfold mtx_owner MTX_FLAGMASK
    norm_num
  have h8 := owner_mask_eq w hw
  refine ⟨hmask.trans h8, ?_, by decide, by decide⟩
  rw [hmask, h8]
  omega

/-- Witness for C9 at the concrete owner word 13 (owner bits 8, flags 5). -/
theorem c9_witness :
    mtx_owner ⟨13⟩ = 8 ∧ mtx_owner ⟨13⟩ = 13 - 13 % 8 ∧
    mtx_owner (MTX_INITIALIZER MTX_SLEEP) = 0 ∧
    mtx_owner (MTX_INITIALIZER MTX_SPIN) = 0 := by
  have h := c9_mtx_owner_masks_flags 13 (by norm_num)
  norm_num at h ⊢
  exact h

end Mtx
